import Mathlib

/-!
Verification development for the photo-collage carousel widget
(`PhotoCollage` component, `PhotoGallery.ts`, `Config.ts`).

The development shallowly embeds the TypeScript source:

* `PhotoGallery.ts` (photo data table and `getPhotoData`) is translated
  directly; the JS `throw` is modelled with `Except`.
* The `PhotoCollage` component (its handlers `handleForwardShuffle`,
  `handleBackwardShuffle`, `handleTouchEnd`, the photo-swap helpers
  `swapPhotoOnCardID` and `swapPhotoBackShuffle`, the entrance effect and
  the `onAnimationComplete` callback) is translated into a pure state
  machine.  `setTimeout` callbacks become pending timers carrying an
  absolute deadline and a registration sequence number; timers fire in
  (deadline, registration) order, and an external input event at time `t`
  may be processed only when no pending timer has a deadline `< t`
  (same-deadline ties between a timer and an input are left
  nondeterministic, as in the browser event loop).
* `CardShuffleLogic` (`initializeCards`, `executeForwardShuffle`,
  `executeBackwardShuffle`), the `Card` module and `ShuffleButton` are not
  part of the available source; they are modelled from the specification
  and marked as such in their doc comments.
-/

/-! ### Data model (`Card` module types, modelled from the spec) -/

/-- Modelled from the spec: the six fixed card identifiers of the `Card`
module (`CardId.CARD_A` … `CardId.CARD_F`), whose defining module is not
under the available source. -/
inductive CardId where
  | CARD_A | CARD_B | CARD_C | CARD_D | CARD_E | CARD_F
deriving DecidableEq, Repr

/-- Modelled from the spec: the six fixed visual slots.  `center` and
`centerBack` are the names used by the in-source helper
`swapPhotoBackShuffle`; the remaining four names follow the spec's
scenario (slots front/centerBack/left1/left2/right1/right2). -/
inductive Position where
  | center | centerBack | left1 | left2 | right1 | right2
deriving DecidableEq, Repr

/-- The per-card animation state enum (`AnimationState`). -/
inductive AnimationState where
  | OFFSCREEN | ONSCREEN | MOVE_TO_POSITION | FLY_LEFT | FLY_RIGHT
deriving DecidableEq, Repr

/-- A card: identifier, current slot, stacking rank and photo index
(photo index is an `Int`, as JS numbers may in principle be negative). -/
structure Card where
  id : CardId
  position : Position
  zIndex : Nat
  currentPhotoIndex : Int
deriving DecidableEq, Repr

/-- Boolean predicate `c.id === i`. -/
def hasId (i : CardId) (c : Card) : Bool := c.id = i

/-- Boolean predicate `c.position === p`. -/
def isAt (p : Position) (c : Card) : Bool := c.position = p

/-! ### Config.ts -/

/-- The shape of the static settings object of `Config.ts`
(`SCALE_VALUE : 0.7` is omitted: floating point, unused by the core). -/
structure ConfigSettings where
  FRAMED_CARD_BG : String
  OFF_SCREEN_DISTANCE : String
  FLY_DISTANCE : String
  SHUFFLE_DELAY : Nat

/-- The static settings object of `Config.ts`. -/
def configSettings : ConfigSettings :=
  { FRAMED_CARD_BG := "#ffffff"
    OFF_SCREEN_DISTANCE := "35vw"
    FLY_DISTANCE := "50vw"
    SHUFFLE_DELAY := 300 }

/-! ### PhotoGallery.ts -/

/-- The `PhotoData` interface: optional image path, title, footer, and the
demo-mode number. -/
structure PhotoData where
  path : Option String := none
  title : String
  footer : String
  demoNumber : Option Int := none
deriving DecidableEq, Repr

/-- The `photoImages` array of `PhotoGallery.ts` (12 demo entries). -/
def photoImages : List PhotoData :=
  [ { title := "Photo #1, Norman, Okla.", footer := "DEMO-001" },
    { title := "Photo #2, Norman, Okla.", footer := "DEMO-002" },
    { title := "Photo #3, Norman, Okla.", footer := "DEMO-003" },
    { title := "Photo #4, Norman, Okla.", footer := "DEMO-004" },
    { title := "Photo #5, Norman, Okla.", footer := "DEMO-005" },
    { title := "Photo #6, Norman, Okla.", footer := "DEMO-006" },
    { title := "Photo #7, Norman, Okla.", footer := "DEMO-007" },
    { title := "Photo #8, Norman, Okla.", footer := "DEMO-008" },
    { title := "Photo #9, Norman, Okla.", footer := "DEMO-009" },
    { title := "Photo #10, Norman, Okla.", footer := "DEMO-010" },
    { title := "Photo #11, Norman, Okla.", footer := "DEMO-011" },
    { title := "Photo #12, Norman, Okla.", footer := "DEMO-012" } ]

/-- JS `String.prototype.padStart` with a single pad character. -/
def padStart (s : String) (n : Nat) (c : Char) : String :=
  if n ≤ s.length then s else String.mk (List.replicate (n - s.length) c) ++ s

/-- `getPhotoData` of `PhotoGallery.ts`; the negative-index `throw` is
modelled with `Except.error`. -/
def getPhotoData (index : Int) : Except String PhotoData :=
  if index < 0 then
    Except.error ("Invalid card index: " ++ toString index ++ ". Must be >= 0")
  else if index < (photoImages.length : Int) then
    let d := photoImages.getD index.toNat { title := "", footer := "" }
    Except.ok { d with demoNumber := some (index + 1) }
  else
    Except.ok
      { path := none
        title := "Photo #" ++ toString (index + 1) ++ ", Norman, Okla."
        footer := "DEMO-" ++ padStart (toString (index + 1)) 3 '0'
        demoNumber := some (index + 1) }

/-! ### Photo-swap helpers of the PhotoCollage component -/

/-- JS remainder (`%`), which takes the sign of the dividend; here only
used with the positive modulus `photoImages.length`. -/
def jsRem (a b : Int) : Int := if 0 ≤ a then a % b else -((-a) % b)

/-- Copy a card list, applying `f` to the first card satisfying `p`
(the JS idiom `const u = l.map(c => ({...c})); u.find(p).mutate()`). -/
def updateFirstBy (p : Card → Bool) (f : Card → Card) : List Card → List Card
  | [] => []
  | c :: cs => if p c then f c :: cs else c :: updateFirstBy p f cs

/-- `swapPhotoOnCardID` of the PhotoCollage component: advance the photo of
the card with the given id by 6 modulo `photoImages.length`. -/
def swapPhotoOnCardID (cardId : CardId) (cards : List Card) : List Card :=
  updateFirstBy (hasId cardId)
    (fun c => { c with
      currentPhotoIndex := jsRem (c.currentPhotoIndex + 6) (photoImages.length : Int) })
    cards

/-- `swapPhotoBackShuffle` of the PhotoCollage component: set the
centerBack card's photo to the one preceding the center card's photo,
wrapping from 0 to the last photo. -/
def swapPhotoBackShuffle (currentCards : List Card) : List Card :=
  match currentCards.find? (isAt Position.centerBack),
        currentCards.find? (isAt Position.center) with
  | some _, some centerCard =>
      let newIndex : Int :=
        if centerCard.currentPhotoIndex = 0 then (photoImages.length : Int) - 1
        else centerCard.currentPhotoIndex - 1
      updateFirstBy (isAt Position.centerBack)
        (fun c => { c with currentPhotoIndex := newIndex }) currentCards
  | _, _ => currentCards

/-! ### Shuffle engine (CardShuffleLogic, modelled from the spec) -/

/-- Modelled from the spec: the fixed forward rotation order over the six
slots (`CardShuffleLogic` is not under the available source).  The spec
fixes only that the rotation is a single 6-cycle and that the backward
rotation (its inverse) moves the `centerBack` card into `center`; the
order among the four side slots is chosen to follow the spec's scenario
listing. -/
def forwardNext : Position → Position
  | .center => .centerBack
  | .centerBack => .left1
  | .left1 => .left2
  | .left2 => .right1
  | .right1 => .right2
  | .right2 => .center

/-- Modelled from the spec: the backward rotation, inverse of
`forwardNext`. -/
def backwardNext : Position → Position
  | .centerBack => .center
  | .left1 => .centerBack
  | .left2 => .left1
  | .right1 => .left2
  | .right2 => .right1
  | .center => .right2

/-- Modelled from the spec: the stacking rank of each slot (spec scenario:
slots front/centerBack/left1/left2/right1/right2 carry z 5,4,3,2,1,0;
corroborated in-source by `card.zIndex === 5` being the highest card and
by `Math.max(0, …)` guarding z-index 0 in the entrance stagger). -/
def slotZ : Position → Nat
  | .center => 5
  | .centerBack => 4
  | .left1 => 3
  | .left2 => 2
  | .right1 => 1
  | .right2 => 0

/-- Result record of `executeForwardShuffle`. -/
structure ForwardShuffleResult where
  cardsWithOldZIndex : List Card
  cardsWithNewZIndex : List Card
  animationStates : CardId → AnimationState
  flyingCardId : CardId

/-- Result record of `executeBackwardShuffle`. -/
structure BackwardShuffleResult where
  cardsWithOldZIndex : List Card
  cardsWithNewZIndex : List Card
  animationStates : CardId → AnimationState

/-- Modelled from the spec: `executeForwardShuffle` of `CardShuffleLogic`
(not under the available source).  The card in the front slot is the
flying card (FLY_LEFT); every card's slot advances along the fixed
rotation; one returned array keeps the pre-shuffle z-indexes, the other
carries the slot-derived post-shuffle z-indexes. -/
def executeForwardShuffle (cards : List Card) : ForwardShuffleResult :=
  let flyingCardId :=
    (((cards.find? (isAt Position.center)).map Card.id).getD CardId.CARD_A)
  let moved := cards.map (fun c => { c with position := forwardNext c.position })
  { cardsWithOldZIndex := moved
    cardsWithNewZIndex := moved.map (fun c => { c with zIndex := slotZ c.position })
    animationStates := fun i =>
      if i = flyingCardId then AnimationState.FLY_LEFT else AnimationState.MOVE_TO_POSITION
    flyingCardId := flyingCardId }

/-- Modelled from the spec: `executeBackwardShuffle` of `CardShuffleLogic`
(not under the available source).  The `centerBack` card flies in
(FLY_RIGHT) to the front slot; every card's slot retreats along the
inverse rotation; the two returned arrays are as in the forward case. -/
def executeBackwardShuffle (cards : List Card) : BackwardShuffleResult :=
  let enteringCardId :=
    (((cards.find? (isAt Position.centerBack)).map Card.id).getD CardId.CARD_A)
  let moved := cards.map (fun c => { c with position := backwardNext c.position })
  { cardsWithOldZIndex := moved
    cardsWithNewZIndex := moved.map (fun c => { c with zIndex := slotZ c.position })
    animationStates := fun i =>
      if i = enteringCardId then AnimationState.FLY_RIGHT else AnimationState.MOVE_TO_POSITION }

/-- Modelled from the spec: `initializeCards` of `CardShuffleLogic` (not
under the available source).  Canonical starting layout of the spec's
scenario: the six cards at slots center/centerBack/left1/left2/right1/right2
with z-indexes 5,4,3,2,1,0, showing the first six photos. -/
def initializeCards : List Card :=
  [ ⟨CardId.CARD_A, Position.center, 5, 0⟩,
    ⟨CardId.CARD_B, Position.centerBack, 4, 1⟩,
    ⟨CardId.CARD_C, Position.left1, 3, 2⟩,
    ⟨CardId.CARD_D, Position.left2, 2, 3⟩,
    ⟨CardId.CARD_E, Position.right1, 1, 4⟩,
    ⟨CardId.CARD_F, Position.right2, 0, 5⟩ ]

/-! ### Controller state machine (PhotoCollage component) -/

/-- A scheduled `setTimeout` callback of the component: release the input
lock, commit a card array (z-order phase commit), or commit the
photo-index advance of the flown card. -/
inductive Pending where
  | unlock : Pending
  | commitCards : List Card → Pending
  | commitPhotoSwap : CardId → List Card → Pending
deriving DecidableEq, Repr

/-- A pending timer: absolute deadline, registration sequence number, and
the scheduled action. -/
structure Timer where
  time : Nat
  seqId : Nat
  act : Pending
deriving DecidableEq, Repr

/-- Is the action a z-order phase commit (`setCards(cardsWithNewZIndex)`)? -/
def isCommit : Pending → Bool
  | .commitCards _ => true
  | _ => false

/-- Is the action the lock release? -/
def isUnlock : Pending → Bool
  | .unlock => true
  | _ => false

/-- The mutable state of the PhotoCollage component, together with the
timer queue and a clock.  `everInView` is a history variable recording
that `onViewportEnter` has fired at least once (used to state the
entrance-gating property); `leftButtonAnimationComplete` and
`rightButtonAnimationComplete` are presentational and omitted. -/
structure ControllerState where
  isInView : Bool
  everInView : Bool
  cards : List Card
  hasCompletedEntrance : Bool
  buttonsDisabled : Bool
  isAnimating : Bool
  animationStates : CardId → AnimationState
  touchStartX : Int
  touchStartY : Int
  pending : List Timer
  now : Nat
  seqCounter : Nat

/-- `handleForwardShuffle` of the PhotoCollage component: drop the request
if the lock is held; otherwise set the lock synchronously, commit the
old-z-order array and the per-card animation states, and schedule the
unlock (at `SHUFFLE_DELAY + 100`), the new-z-order commit (at
`SHUFFLE_DELAY`) and the photo-index advance of the flown card (at
`SHUFFLE_DELAY + 100`), in that registration order. -/
def handleForwardShuffle (s : ControllerState) : ControllerState :=
  if s.isAnimating || s.buttonsDisabled then s
  else
    let delay := configSettings.SHUFFLE_DELAY + 100
    let shuffleResult := executeForwardShuffle s.cards
    { s with
      isAnimating := true
      buttonsDisabled := true
      cards := shuffleResult.cardsWithOldZIndex
      animationStates := shuffleResult.animationStates
      pending := s.pending ++
        [ ⟨s.now + delay, s.seqCounter, Pending.unlock⟩,
          ⟨s.now + configSettings.SHUFFLE_DELAY, s.seqCounter + 1,
            Pending.commitCards shuffleResult.cardsWithNewZIndex⟩,
          ⟨s.now + delay, s.seqCounter + 2,
            Pending.commitPhotoSwap shuffleResult.flyingCardId
              shuffleResult.cardsWithNewZIndex⟩ ]
      seqCounter := s.seqCounter + 3 }

/-- `handleBackwardShuffle` of the PhotoCollage component: drop the request
if the lock is held; otherwise set the lock synchronously, pre-compute the
centerBack photo via `swapPhotoBackShuffle`, commit the old-z-order array
and animation states, and schedule the unlock (at `SHUFFLE_DELAY`) and the
new-z-order commit (at `SHUFFLE_DELAY / 2`), in that registration order. -/
def handleBackwardShuffle (s : ControllerState) : ControllerState :=
  if s.isAnimating || s.buttonsDisabled then s
  else
    let delay := configSettings.SHUFFLE_DELAY
    let cardsWithUpdatedPhoto := swapPhotoBackShuffle s.cards
    let shuffleResult := executeBackwardShuffle cardsWithUpdatedPhoto
    { s with
      isAnimating := true
      buttonsDisabled := true
      cards := shuffleResult.cardsWithOldZIndex
      animationStates := shuffleResult.animationStates
      pending := s.pending ++
        [ ⟨s.now + delay, s.seqCounter, Pending.unlock⟩,
          ⟨s.now + delay / 2, s.seqCounter + 1,
            Pending.commitCards shuffleResult.cardsWithNewZIndex⟩ ]
      seqCounter := s.seqCounter + 2 }

/-- `handleTouchEnd` of the PhotoCollage component: ignore the gesture
before entrance completion or while the lock is held; otherwise a
predominantly horizontal swipe beyond 50 px triggers the backward
(rightward swipe) or forward (leftward swipe) shuffle. -/
def handleTouchEnd (s : ControllerState) (x y : Int) : ControllerState :=
  if !s.hasCompletedEntrance || s.isAnimating || s.buttonsDisabled then s
  else
    let deltaX := x - s.touchStartX
    let deltaY := y - s.touchStartY
    if deltaX.natAbs > deltaY.natAbs ∧ deltaX.natAbs > 50 then
      if 0 < deltaX then handleBackwardShuffle s else handleForwardShuffle s
    else s

/-- The `onAnimationComplete` callback of a card, as in the component: the
rendering layer reports completion of the variant currently assigned to
the card (completions not matching the card's current animation state
cannot occur and are ignored).  An ONSCREEN completion by the card of
z-index 5 flips `hasCompletedEntrance` and moves every card to
MOVE_TO_POSITION; a FLY_LEFT/FLY_RIGHT completion resets that card to
MOVE_TO_POSITION. -/
def onAnimationComplete (s : ControllerState) (id : CardId)
    (defn : AnimationState) : ControllerState :=
  if s.animationStates id ≠ defn then s
  else
    let zOk : Bool :=
      match s.cards.find? (hasId id) with
      | some c => decide (c.zIndex = 5)
      | none => false
    let s1 :=
      if defn = AnimationState.ONSCREEN ∧ zOk = true ∧ s.hasCompletedEntrance = false then
        { s with
          hasCompletedEntrance := true
          animationStates := fun _ => AnimationState.MOVE_TO_POSITION }
      else s
    if defn = AnimationState.FLY_LEFT ∨ defn = AnimationState.FLY_RIGHT then
      { s1 with animationStates := fun j =>
          if j = id then AnimationState.MOVE_TO_POSITION else s1.animationStates j }
    else s1

/-- The discrete input events of the component.  Button clicks invoke the
same directional handlers as the gesture path (the spec: gestures trigger
"identically to button activation"; the `ShuffleButton` internals are not
under the available source). -/
inductive InputEvent where
  | enterViewport | leaveViewport
  | animationComplete (id : CardId) (defn : AnimationState)
  | forwardClick | backwardClick
  | touchStart (x y : Int)
  | touchEnd (x y : Int)

/-- Dispatch one input event.  `enterViewport` also runs the entrance
`useEffect` (all cards to ONSCREEN when the entrance has not completed). -/
def handleInput (s : ControllerState) : InputEvent → ControllerState
  | .enterViewport =>
      let s1 := { s with isInView := true, everInView := true }
      if s1.hasCompletedEntrance = false then
        { s1 with animationStates := fun _ => AnimationState.ONSCREEN }
      else s1
  | .leaveViewport => { s with isInView := false }
  | .animationComplete id defn => onAnimationComplete s id defn
  | .forwardClick => handleForwardShuffle s
  | .backwardClick => handleBackwardShuffle s
  | .touchStart x y => { s with touchStartX := x, touchStartY := y }
  | .touchEnd x y => handleTouchEnd s x y

/-- Process an input event arriving at time `t`. -/
def stepInput (s : ControllerState) (e : InputEvent) (t : Nat) : ControllerState :=
  handleInput { s with now := t } e

/-- Timers fire in (deadline, registration) order. -/
def Timer.lexLE (a b : Timer) : Prop :=
  a.time < b.time ∨ (a.time = b.time ∧ a.seqId ≤ b.seqId)

/-- Fire a pending timer: remove it from the queue, advance the clock to
its deadline and apply its action. -/
def applyTimer (s : ControllerState) (tm : Timer) : ControllerState :=
  let s1 := { s with pending := s.pending.erase tm, now := tm.time }
  match tm.act with
  | .unlock => { s1 with buttonsDisabled := false, isAnimating := false }
  | .commitCards cs => { s1 with cards := cs }
  | .commitPhotoSwap fid cs => { s1 with cards := swapPhotoOnCardID fid cs }

/-- One step of the single-threaded event loop: either an input event is
processed at a time `t` not later than any pending deadline (an input
never overtakes an overdue timer; a tie with an equal-deadline timer may
resolve either way), or the earliest pending timer fires. -/
inductive EventStep : ControllerState → ControllerState → Prop where
  | input (s : ControllerState) (e : InputEvent) (t : Nat)
      (hnow : s.now ≤ t) (hfresh : ∀ tm ∈ s.pending, t ≤ tm.time) :
      EventStep s (stepInput s e t)
  | timer (s : ControllerState) (tm : Timer)
      (hmem : tm ∈ s.pending) (hmin : ∀ tm2 ∈ s.pending, tm.lexLE tm2) :
      EventStep s (applyTimer s tm)

/-- The initial mounted state of the component. -/
def initState : ControllerState :=
  { isInView := false
    everInView := false
    cards := initializeCards
    hasCompletedEntrance := false
    buttonsDisabled := false
    isAnimating := false
    animationStates := fun _ => AnimationState.OFFSCREEN
    touchStartX := 0
    touchStartY := 0
    pending := []
    now := 0
    seqCounter := 0 }

/-- States reachable from the mounted state. -/
def Reachable (s : ControllerState) : Prop :=
  Relation.ReflTransGen EventStep initState s

/-! ### Validity predicate and inductive invariant -/

/-- The six card identifiers. -/
def allIds : List CardId :=
  [CardId.CARD_A, CardId.CARD_B, CardId.CARD_C,
   CardId.CARD_D, CardId.CARD_E, CardId.CARD_F]

/-- The six slots. -/
def allPositions : List Position :=
  [Position.center, Position.centerBack, Position.left1,
   Position.left2, Position.right1, Position.right2]

/-- A well-formed card array: the ids are exactly the six card ids, the
occupied slots are exactly the six slots (card-to-slot bijection), the
z-indexes are exactly {0,…,5}, and every photo index lies in
[0, photoImages.length). -/
structure ValidCards (cs : List Card) : Prop where
  ids : (cs.map Card.id).Perm allIds
  poss : (cs.map Card.position).Perm allPositions
  zs : (cs.map Card.zIndex).Perm [5, 4, 3, 2, 1, 0]
  photos : ∀ c ∈ cs, 0 ≤ c.currentPhotoIndex ∧ c.currentPhotoIndex < 12

/-- Validity of the card array carried by a scheduled action. -/
def PayloadOK : Pending → Prop
  | .unlock => True
  | .commitCards cs => ValidCards cs
  | .commitPhotoSwap _ cs => ValidCards cs

/-- The inductive invariant of the controller, preserved by every event
and by every timer firing. -/
structure CtrlInv (s : ControllerState) : Prop where
  lockEq : s.isAnimating = s.buttonsDisabled
  noCommitWhenFree : s.isAnimating = false →
    s.pending.countP (fun tm => isCommit tm.act) = 0
  noUnlockWhenFree : s.isAnimating = false →
    s.pending.countP (fun tm => isUnlock tm.act) = 0
  oneUnlock : s.pending.countP (fun tm => isUnlock tm.act) ≤ 1
  commitBeforeUnlock : ∀ tmc ∈ s.pending, ∀ tmu ∈ s.pending,
    isCommit tmc.act = true → isUnlock tmu.act = true → tmc.time < tmu.time
  validCards : ValidCards s.cards
  validPayloads : ∀ tm ∈ s.pending, PayloadOK tm.act
  hceInView : s.hasCompletedEntrance = true → s.everInView = true
  onscreenInView : ∀ i, s.animationStates i = AnimationState.ONSCREEN →
    s.everInView = true

/-- Is a `getPhotoData` result a success? -/
def isOkE : Except String PhotoData → Bool
  | .ok _ => true
  | .error _ => false

/-! ### Concrete states used by witnesses and counterexamples -/

/-- The state right after a backward-shuffle request in the mounted state. -/
def backwardOnceState : ControllerState :=
  stepInput initState InputEvent.backwardClick 0

/-- A state in which the input lock is held (right after a forward
request). -/
def lockedState : ControllerState :=
  stepInput initState InputEvent.forwardClick 0

/-- The state right after the widget enters the viewport. -/
def inViewState : ControllerState :=
  stepInput initState InputEvent.enterViewport 0

/-- The state right after the top card (z-index 5) reports completion of
its ONSCREEN entrance animation. -/
def entranceDoneState : ControllerState :=
  stepInput inViewState
    (InputEvent.animationComplete CardId.CARD_A AnimationState.ONSCREEN) 0

/-! ### Helper lemmas: updateFirstBy -/

theorem photoImages_length : photoImages.length = 12 := rfl

theorem updateFirstBy_length (p : Card → Bool) (f : Card → Card)
    (cs : List Card) : (updateFirstBy p f cs).length = cs.length := by
  induction cs with
  | nil => rfl
  | cons hd tl ih =>
    by_cases h : p hd <;> simp [updateFirstBy, h, ih]

theorem updateFirstBy_map_field {β : Type} (g : Card → β) (p : Card → Bool)
    (f : Card → Card) (cs : List Card) (hf : ∀ c, g (f c) = g c) :
    (updateFirstBy p f cs).map g = cs.map g := by
  induction cs with
  | nil => rfl
  | cons hd tl ih =>
    by_cases h : p hd <;> simp [updateFirstBy, h, ih, hf]

theorem mem_updateFirstBy (p : Card → Bool) (f : Card → Card)
    (cs : List Card) (c' : Card) (h : c' ∈ updateFirstBy p f cs) :
    c' ∈ cs ∨ ∃ c ∈ cs, p c = true ∧ c' = f c := by
  induction cs with
  | nil => simp [updateFirstBy] at h
  | cons hd tl ih =>
    by_cases hp : p hd
    · simp only [updateFirstBy, if_pos hp, List.mem_cons] at h
      rcases h with h | h
      · exact Or.inr ⟨hd, List.mem_cons_self hd tl, hp, h⟩
      · exact Or.inl (List.mem_cons_of_mem hd h)
    · simp only [updateFirstBy, if_neg hp, List.mem_cons] at h
      rcases h with h | h
      · exact Or.inl (h ▸ List.mem_cons_self hd tl)
      · rcases ih h with h2 | ⟨c, hc, hpc, hc'⟩
        · exact Or.inl (List.mem_cons_of_mem hd h2)
        · exact Or.inr ⟨c, List.mem_cons_of_mem hd hc, hpc, hc'⟩

theorem updateFirstBy_getElem? (p : Card → Bool) (f : Card → Card)
    (cs : List Card) (i : Nat) :
    (updateFirstBy p f cs)[i]? = cs[i]? ∨
      ∃ c, cs[i]? = some c ∧ p c = true ∧
        (updateFirstBy p f cs)[i]? = some (f c) := by
  induction cs generalizing i with
  | nil => left; rfl
  | cons hd tl ih =>
    by_cases hp : p hd
    · cases i with
      | zero =>
        right
        exact ⟨hd, by simp, hp, by simp [updateFirstBy, hp]⟩
      | succ n =>
        left
        simp [updateFirstBy, hp]
    · cases i with
      | zero => left; simp [updateFirstBy, hp]
      | succ n =>
        rcases ih n with h | ⟨c, hc, hpc, hres⟩
        · left; simpa [updateFirstBy, hp] using h
        · right; exact ⟨c, by simpa using hc, hpc, by simpa [updateFirstBy, hp] using hres⟩

theorem mem_of_getElem?_card (cs : List Card) (i : Nat) (c : Card)
    (h : cs[i]? = some c) : c ∈ cs := by
  obtain ⟨hlt, rfl⟩ := List.getElem?_eq_some.mp h
  exact List.getElem_mem hlt

theorem updateFirstBy_key_getElem? {β : Type} [DecidableEq β]
    (key : Card → β) (x : β) (f : Card → Card) (cs : List Card)
    (hnd : (cs.map key).Nodup) (i : Nat) (c : Card) (hc : cs[i]? = some c) :
    (updateFirstBy (fun c2 => key c2 = x) f cs)[i]? =
      some (if key c = x then f c else c) := by
  induction cs generalizing i with
  | nil => simp at hc
  | cons hd tl ih =>
    simp only [List.map_cons, List.nodup_cons] at hnd
    by_cases hp : key hd = x
    · cases i with
      | zero =>
        simp only [List.getElem?_cons_zero, Option.some_inj] at hc
        subst hc
        simp [updateFirstBy, hp]
      | succ n =>
        simp only [List.getElem?_cons_succ] at hc
        have hmem : c ∈ tl := mem_of_getElem?_card tl n c hc
        have hkc : key c ≠ x := by
          intro hkx
          have heq : key hd = key c := hp.trans hkx.symm
          exact hnd.1 (heq ▸ List.mem_map_of_mem key hmem)
        simp [updateFirstBy, hp, hc, hkc]
    · cases i with
      | zero =>
        simp only [List.getElem?_cons_zero, Option.some_inj] at hc
        subst hc
        simp [updateFirstBy, hp]
      | succ n =>
        simp only [List.getElem?_cons_succ] at hc
        simp [updateFirstBy, hp, ih hnd.2 n hc]

theorem find?_key_of_mem {β : Type} [DecidableEq β]
    (key : Card → β) (x : β) (cs : List Card)
    (hnd : (cs.map key).Nodup) (c : Card) (hc : c ∈ cs) (hk : key c = x) :
    cs.find? (fun c2 => key c2 = x) = some c := by
  induction cs with
  | nil => simp at hc
  | cons hd tl ih =>
    simp only [List.map_cons, List.nodup_cons] at hnd
    rcases List.mem_cons.mp hc with rfl | hmem
    · exact List.find?_cons_of_pos _ (by simp [hk])
    · have hne : key hd ≠ x := by
        intro hkx
        have heq : key hd = key c := hkx.trans hk.symm
        exact hnd.1 (heq ▸ List.mem_map_of_mem key hmem)
      rw [List.find?_cons_of_neg _ (by simp [hne])]
      exact ih hnd.2 hmem

/-! ### Helper lemmas: ValidCards -/

theorem ValidCards.nodup_id {cs : List Card} (h : ValidCards cs) :
    (cs.map Card.id).Nodup :=
  h.ids.nodup_iff.mpr (by decide)

theorem ValidCards.nodup_pos {cs : List Card} (h : ValidCards cs) :
    (cs.map Card.position).Nodup :=
  h.poss.nodup_iff.mpr (by decide)

theorem ValidCards.exists_pos {cs : List Card} (h : ValidCards cs)
    (p : Position) : ∃ c ∈ cs, c.position = p := by
  have hp : p ∈ allPositions := by cases p <;> simp [allPositions]
  have hmem : p ∈ cs.map Card.position := h.poss.mem_iff.mpr hp
  simpa using hmem

theorem ValidCards.z_le_five {cs : List Card} (h : ValidCards cs)
    (c : Card) (hc : c ∈ cs) : c.zIndex ≤ 5 := by
  have hmem : c.zIndex ∈ cs.map Card.zIndex := List.mem_map_of_mem Card.zIndex hc
  have hz := h.zs.mem_iff.mp hmem
  simp only [List.mem_cons, List.not_mem_nil, or_false] at hz
  omega

theorem validCards_map_position (f : Position → Position)
    (hf : (allPositions.map f).Perm allPositions) (cs : List Card)
    (h : ValidCards cs) :
    ValidCards (cs.map fun c => { c with position := f c.position }) := by
  constructor
  · rw [List.map_map]; exact h.ids
  · rw [List.map_map]
    have hcomp : (Card.position ∘ fun c => { c with position := f c.position })
        = f ∘ Card.position := rfl
    rw [hcomp, ← List.map_map]
    exact (h.poss.map f).trans hf
  · rw [List.map_map]; exact h.zs
  · intro c hc
    obtain ⟨c0, hc0, rfl⟩ := List.mem_map.mp hc
    exact h.photos c0 hc0

theorem validCards_rezIndex (cs : List Card) (h : ValidCards cs) :
    ValidCards (cs.map fun c => { c with zIndex := slotZ c.position }) := by
  constructor
  · rw [List.map_map]; exact h.ids
  · rw [List.map_map]; exact h.poss
  · rw [List.map_map]
    have hcomp : (Card.zIndex ∘ fun c => { c with zIndex := slotZ c.position })
        = slotZ ∘ Card.position := rfl
    rw [hcomp, ← List.map_map]
    have h2 := h.poss.map slotZ
    have h3 : allPositions.map slotZ = [5, 4, 3, 2, 1, 0] := rfl
    rw [h3] at h2
    exact h2
  · intro c hc
    obtain ⟨c0, hc0, rfl⟩ := List.mem_map.mp hc
    exact h.photos c0 hc0

theorem validCards_forward_old (cs : List Card) (h : ValidCards cs) :
    ValidCards (executeForwardShuffle cs).cardsWithOldZIndex :=
  validCards_map_position forwardNext (by decide) cs h

theorem validCards_forward_new (cs : List Card) (h : ValidCards cs) :
    ValidCards (executeForwardShuffle cs).cardsWithNewZIndex :=
  validCards_rezIndex _ (validCards_map_position forwardNext (by decide) cs h)

theorem validCards_backward_old (cs : List Card) (h : ValidCards cs) :
    ValidCards (executeBackwardShuffle cs).cardsWithOldZIndex :=
  validCards_map_position backwardNext (by decide) cs h

theorem validCards_backward_new (cs : List Card) (h : ValidCards cs) :
    ValidCards (executeBackwardShuffle cs).cardsWithNewZIndex :=
  validCards_rezIndex _ (validCards_map_position backwardNext (by decide) cs h)

theorem jsRem_of_nonneg (a b : Int) (ha : 0 ≤ a) : jsRem a b = a % b := by
  rw [jsRem, if_pos ha]

theorem validCards_swapPhotoOnCardID (cardId : CardId) (cs : List Card)
    (h : ValidCards cs) : ValidCards (swapPhotoOnCardID cardId cs) := by
  constructor
  · rw [swapPhotoOnCardID, updateFirstBy_map_field Card.id]
    · exact h.ids
    · intro c; rfl
  · rw [swapPhotoOnCardID, updateFirstBy_map_field Card.position]
    · exact h.poss
    · intro c; rfl
  · rw [swapPhotoOnCardID, updateFirstBy_map_field Card.zIndex]
    · exact h.zs
    · intro c; rfl
  · intro c hc
    rw [swapPhotoOnCardID] at hc
    rcases mem_updateFirstBy _ _ _ _ hc with hmem | ⟨c0, hc0, _, rfl⟩
    · exact h.photos c hmem
    · have hb := h.photos c0 hc0
      have hlen : (photoImages.length : Int) = 12 := rfl
      simp only [hlen]
      rw [jsRem_of_nonneg _ _ (by omega)]
      exact ⟨Int.emod_nonneg _ (by norm_num), Int.emod_lt_of_pos _ (by norm_num)⟩

theorem validCards_swapPhotoBackShuffle (cs : List Card)
    (h : ValidCards cs) : ValidCards (swapPhotoBackShuffle cs) := by
  unfold swapPhotoBackShuffle
  cases h1 : cs.find? (isAt Position.centerBack) with
  | none =>
    cases h2 : cs.find? (isAt Position.center) with
    | none => exact h
    | some cc => exact h
  | some cb =>
    cases h2 : cs.find? (isAt Position.center) with
    | none => exact h
    | some cc =>
      have hccm : cc ∈ cs := List.mem_of_find?_eq_some h2
      have hbnd := h.photos cc hccm
      constructor
      · rw [updateFirstBy_map_field Card.id]
        · exact h.ids
        · intro c; rfl
      · rw [updateFirstBy_map_field Card.position]
        · exact h.poss
        · intro c; rfl
      · rw [updateFirstBy_map_field Card.zIndex]
        · exact h.zs
        · intro c; rfl
      · intro c hc
        rcases mem_updateFirstBy _ _ _ _ hc with hmem | ⟨c0, hc0, _, rfl⟩
        · exact h.photos c hmem
        · have hlen : (photoImages.length : Int) = 12 := rfl
          simp only [hlen]
          constructor
          · split <;> omega
          · split <;> omega

/-! ### The invariant is inductive -/

theorem validCards_init : ValidCards initializeCards := by
  refine ⟨by decide, by decide, by decide, by decide⟩

theorem ctrlInv_init : CtrlInv initState := by
  refine ⟨rfl, fun _ => rfl, fun _ => rfl, by simp [initState], ?_, validCards_init,
    ?_, ?_, ?_⟩
  · intro tmc hc
    simp [initState] at hc
  · intro tm hm
    simp [initState] at hm
  · intro hce
    simp [initState] at hce
  · intro i hi
    simp [initState] at hi

theorem ctrlInv_handleForward (s : ControllerState) (h : CtrlInv s) :
    CtrlInv (handleForwardShuffle s) := by
  unfold handleForwardShuffle
  split
  · exact h
  · rename_i hlock
    simp only [Bool.or_eq_true, not_or, Bool.not_eq_true] at hlock
    obtain ⟨hA, hB⟩ := hlock
    have hnoU := List.countP_eq_zero.mp (h.noUnlockWhenFree hA)
    have hnoC := List.countP_eq_zero.mp (h.noCommitWhenFree hA)
    refine ⟨rfl, ?_, ?_, ?_, ?_, ?_, ?_, ?_, ?_⟩
    · intro hfree; simp at hfree
    · intro hfree; simp at hfree
    · simp only [List.countP_append]
      have h0 : s.pending.countP (fun tm => isUnlock tm.act) = 0 :=
        h.noUnlockWhenFree hA
      rw [h0]
      simp [List.countP_cons, isUnlock]
    · intro tmc hc tmu hu hcommit hunlock
      simp only [List.mem_append, List.mem_cons, List.not_mem_nil, or_false] at hc hu
      rcases hc with hc | rfl | rfl | rfl
      · exact absurd hcommit (by simpa using hnoC tmc hc)
      · simp [isCommit] at hcommit
      · rcases hu with hu | rfl | rfl | rfl
        · exact absurd hunlock (by simpa using hnoU tmu hu)
        · simp only []
          omega
        · simp [isUnlock] at hunlock
        · simp [isUnlock] at hunlock
      · simp [isCommit] at hcommit
    · exact validCards_forward_old s.cards h.validCards
    · intro tm hm
      simp only [List.mem_append, List.mem_cons, List.not_mem_nil, or_false] at hm
      rcases hm with hm | rfl | rfl | rfl
      · exact h.validPayloads tm hm
      · trivial
      · exact validCards_forward_new s.cards h.validCards
      · exact validCards_forward_new s.cards h.validCards
    · exact h.hceInView
    · intro i hi
      simp only [executeForwardShuffle] at hi
      split at hi <;> simp at hi

theorem ctrlInv_handleBackward (s : ControllerState) (h : CtrlInv s) :
    CtrlInv (handleBackwardShuffle s) := by
  unfold handleBackwardShuffle
  split
  · exact h
  · rename_i hlock
    simp only [Bool.or_eq_true, not_or, Bool.not_eq_true] at hlock
    obtain ⟨hA, hB⟩ := hlock
    have hnoU := List.countP_eq_zero.mp (h.noUnlockWhenFree hA)
    have hnoC := List.countP_eq_zero.mp (h.noCommitWhenFree hA)
    have hvalid : ValidCards (swapPhotoBackShuffle s.cards) :=
      validCards_swapPhotoBackShuffle s.cards h.validCards
    refine ⟨rfl, ?_, ?_, ?_, ?_, ?_, ?_, ?_, ?_⟩
    · intro hfree; simp at hfree
    · intro hfree; simp at hfree
    · simp only [List.countP_append]
      have h0 : s.pending.countP (fun tm => isUnlock tm.act) = 0 :=
        h.noUnlockWhenFree hA
      rw [h0]
      simp [List.countP_cons, isUnlock]
    · intro tmc hc tmu hu hcommit hunlock
      simp only [List.mem_append, List.mem_cons, List.not_mem_nil, or_false] at hc hu
      rcases hc with hc | rfl | rfl
      · exact absurd hcommit (by simpa using hnoC tmc hc)
      · simp [isCommit] at hcommit
      · rcases hu with hu | rfl | rfl
        · exact absurd hunlock (by simpa using hnoU tmu hu)
        · simp only []
          have hd : configSettings.SHUFFLE_DELAY = 300 := rfl
          omega
        · simp [isUnlock] at hunlock
    · exact validCards_backward_old _ hvalid
    · intro tm hm
      simp only [List.mem_append, List.mem_cons, List.not_mem_nil, or_false] at hm
      rcases hm with hm | rfl | rfl
      · exact h.validPayloads tm hm
      · trivial
      · exact validCards_backward_new _ hvalid
    · exact h.hceInView
    · intro i hi
      simp only [executeBackwardShuffle] at hi
      split at hi <;> simp at hi

theorem ctrlInv_applyTimer (s : ControllerState) (tm : Timer) (h : CtrlInv s)
    (hmem : tm ∈ s.pending) (hmin : ∀ tm2 ∈ s.pending, tm.lexLE tm2) :
    CtrlInv (applyTimer s tm) := by
  have hperm := List.perm_cons_erase hmem
  have hsub : ∀ x ∈ s.pending.erase tm, x ∈ s.pending :=
    fun x hx => List.mem_of_mem_erase hx
  have hsubl := List.erase_sublist tm s.pending
  cases hact : tm.act with
  | unlock =>
    have hcount : s.pending.countP (fun tm2 => isUnlock tm2.act) =
        (s.pending.erase tm).countP (fun tm2 => isUnlock tm2.act) + 1 := by
      rw [hperm.countP_eq]
      simp [List.countP_cons, hact, isUnlock]
    have hUzero : (s.pending.erase tm).countP (fun tm2 => isUnlock tm2.act) = 0 := by
      have := h.oneUnlock
      omega
    have hCzero : (s.pending.erase tm).countP (fun tm2 => isCommit tm2.act) = 0 := by
      refine List.countP_eq_zero.mpr ?_
      intro x hx hcx
      have hxp := hsub x hx
      have hlt := h.commitBeforeUnlock x hxp tm hmem (by simpa using hcx)
        (by simp [hact, isUnlock])
      have hle := hmin x hxp
      rcases hle with hle | ⟨hle, _⟩ <;> omega
    simp only [applyTimer, hact]
    refine ⟨rfl, fun _ => hCzero, fun _ => hUzero, by dsimp only; omega, ?_,
      h.validCards, ?_, h.hceInView, h.onscreenInView⟩
    · intro tmc hc tmu hu hcommit hunlock
      exact h.commitBeforeUnlock tmc (hsub tmc hc) tmu (hsub tmu hu) hcommit hunlock
    · intro tm2 hm2
      exact h.validPayloads tm2 (hsub tm2 hm2)
  | commitCards cs =>
    have hAtrue : s.isAnimating = true := by
      cases hA : s.isAnimating
      · have := List.countP_eq_zero.mp (h.noCommitWhenFree hA) tm hmem
        simp [hact, isCommit] at this
      · rfl
    have hvalid : ValidCards cs := by
      have := h.validPayloads tm hmem
      rw [hact] at this
      exact this
    simp only [applyTimer, hact]
    refine ⟨h.lockEq, ?_, ?_, ?_, ?_, hvalid, ?_, h.hceInView, h.onscreenInView⟩
    · intro hfree; rw [hAtrue] at hfree; cases hfree
    · intro hfree; rw [hAtrue] at hfree; cases hfree
    · exact le_trans (hsubl.countP_le _) h.oneUnlock
    · intro tmc hc tmu hu hcommit hunlock
      exact h.commitBeforeUnlock tmc (hsub tmc hc) tmu (hsub tmu hu) hcommit hunlock
    · intro tm2 hm2
      exact h.validPayloads tm2 (hsub tm2 hm2)
  | commitPhotoSwap fid cs =>
    have hvalid : ValidCards cs := by
      have := h.validPayloads tm hmem
      rw [hact] at this
      exact this
    simp only [applyTimer, hact]
    refine ⟨h.lockEq, ?_, ?_, ?_, ?_, validCards_swapPhotoOnCardID fid cs hvalid, ?_,
      h.hceInView, h.onscreenInView⟩
    · intro hfree
      have := h.noCommitWhenFree hfree
      have hle := hsubl.countP_le (fun tm2 => isCommit tm2.act)
      dsimp only
      omega
    · intro hfree
      have := h.noUnlockWhenFree hfree
      have hle := hsubl.countP_le (fun tm2 => isUnlock tm2.act)
      dsimp only
      omega
    · exact le_trans (hsubl.countP_le _) h.oneUnlock
    · intro tmc hc tmu hu hcommit hunlock
      exact h.commitBeforeUnlock tmc (hsub tmc hc) tmu (hsub tmu hu) hcommit hunlock
    · intro tm2 hm2
      exact h.validPayloads tm2 (hsub tm2 hm2)

theorem ctrlInv_onAnimationComplete (s : ControllerState) (id : CardId)
    (defn : AnimationState) (h : CtrlInv s) :
    CtrlInv (onAnimationComplete s id defn) := by
  unfold onAnimationComplete
  split
  · exact h
  · rename_i hguard
    have hstate : s.animationStates id = defn := not_not.mp hguard
    dsimp only
    by_cases hons : defn = AnimationState.ONSCREEN ∧
        (match s.cards.find? (hasId id) with
          | some c => decide (c.zIndex = 5)
          | none => false) = true ∧ s.hasCompletedEntrance = false
    · rw [if_pos hons]
      by_cases hfly : defn = AnimationState.FLY_LEFT ∨ defn = AnimationState.FLY_RIGHT
      · exfalso
        rcases hfly with h1 | h1 <;> rw [hons.1] at h1 <;> cases h1
      · rw [if_neg hfly]
        have hin : s.everInView = true :=
          h.onscreenInView id (hstate.trans hons.1)
        refine ⟨h.lockEq, h.noCommitWhenFree, h.noUnlockWhenFree, h.oneUnlock,
          h.commitBeforeUnlock, h.validCards, h.validPayloads, fun _ => hin, ?_⟩
        intro i hi
        cases hi
    · rw [if_neg hons]
      by_cases hfly : defn = AnimationState.FLY_LEFT ∨ defn = AnimationState.FLY_RIGHT
      · rw [if_pos hfly]
        refine ⟨h.lockEq, h.noCommitWhenFree, h.noUnlockWhenFree, h.oneUnlock,
          h.commitBeforeUnlock, h.validCards, h.validPayloads, h.hceInView, ?_⟩
        intro i hi
        dsimp only at hi
        by_cases hii : i = id
        · rw [if_pos hii] at hi; cases hi
        · rw [if_neg hii] at hi
          exact h.onscreenInView i hi
      · rw [if_neg hfly]
        exact h

theorem ctrlInv_handleInput (s : ControllerState) (e : InputEvent)
    (h : CtrlInv s) : CtrlInv (handleInput s e) := by
  cases e with
  | enterViewport =>
    dsimp only [handleInput]
    split
    · exact ⟨h.lockEq, h.noCommitWhenFree, h.noUnlockWhenFree, h.oneUnlock,
        h.commitBeforeUnlock, h.validCards, h.validPayloads, fun _ => rfl,
        fun _ _ => rfl⟩
    · exact ⟨h.lockEq, h.noCommitWhenFree, h.noUnlockWhenFree, h.oneUnlock,
        h.commitBeforeUnlock, h.validCards, h.validPayloads, fun _ => rfl,
        fun _ _ => rfl⟩
  | leaveViewport =>
    exact ⟨h.lockEq, h.noCommitWhenFree, h.noUnlockWhenFree, h.oneUnlock,
      h.commitBeforeUnlock, h.validCards, h.validPayloads, h.hceInView,
      h.onscreenInView⟩
  | animationComplete id defn => exact ctrlInv_onAnimationComplete s id defn h
  | forwardClick => exact ctrlInv_handleForward s h
  | backwardClick => exact ctrlInv_handleBackward s h
  | touchStart x y =>
    exact ⟨h.lockEq, h.noCommitWhenFree, h.noUnlockWhenFree, h.oneUnlock,
      h.commitBeforeUnlock, h.validCards, h.validPayloads, h.hceInView,
      h.onscreenInView⟩
  | touchEnd x y =>
    show CtrlInv (handleTouchEnd s x y)
    unfold handleTouchEnd
    split
    · exact h
    · dsimp only
      split
      · split
        · exact ctrlInv_handleBackward s h
        · exact ctrlInv_handleForward s h
      · exact h

theorem ctrlInv_stepInput (s : ControllerState) (e : InputEvent) (t : Nat)
    (h : CtrlInv s) : CtrlInv (stepInput s e t) :=
  ctrlInv_handleInput { s with now := t } e
    ⟨h.lockEq, h.noCommitWhenFree, h.noUnlockWhenFree, h.oneUnlock,
      h.commitBeforeUnlock, h.validCards, h.validPayloads, h.hceInView,
      h.onscreenInView⟩

theorem ctrlInv_step (s s' : ControllerState) (hstep : EventStep s s')
    (h : CtrlInv s) : CtrlInv s' := by
  cases hstep with
  | input e t hnow hfresh => exact ctrlInv_stepInput s e t h
  | timer tm hmem hmin => exact ctrlInv_applyTimer s tm h hmem hmin

theorem ctrlInv_reachable (s : ControllerState) (h : Reachable s) :
    CtrlInv s := by
  unfold Reachable at h
  induction h with
  | refl => exact ctrlInv_init
  | tail hsteps hstep ih => exact ctrlInv_step _ _ hstep ih

/-! ### Claim theorems -/

/-- C8: for every integer index ≥ 12 (the gallery size), `getPhotoData`
does not fail and returns a synthesized datum whose title and footer are
derived from index+1, the footer's numeric part zero-padded to 3 digits. -/
theorem c8_fallback_synthesis (index : Int) (h : 12 ≤ index) :
    getPhotoData index = Except.ok
      { path := none
        title := "Photo #" ++ toString (index + 1) ++ ", Norman, Okla."
        footer := "DEMO-" ++ padStart (toString (index + 1)) 3 '0'
        demoNumber := some (index + 1) } ∧
    photoImages.length = 12 := by
  refine ⟨?_, rfl⟩
  have hlen : (photoImages.length : Int) = 12 := rfl
  unfold getPhotoData
  rw [if_neg (by omega), if_neg (by rw [hlen]; omega)]

/-- Witness for C8 at index 14: the datum is synthesized from 15 with a
zero-padded footer. -/
theorem c8_fallback_synthesis_witness :
    (12 : Int) ≤ 14 ∧ getPhotoData 14 = Except.ok
      { path := none
        title := "Photo #15, Norman, Okla."
        footer := "DEMO-015"
        demoNumber := some 15 } := by
  have h := (c8_fallback_synthesis 14 (by norm_num)).1
  exact ⟨by norm_num, by rw [h]; rfl⟩

/-- C9: a negative index makes `getPhotoData` signal an invalid-argument
error; a non-negative index never errors; and the error branch is
unreachable from the controller, whose reachable states carry only
non-negative photo indices. -/
theorem c9_negative_index_guard :
    (∀ index : Int, index < 0 →
       getPhotoData index = Except.error
         ("Invalid card index: " ++ toString index ++ ". Must be >= 0")) ∧
    (∀ index : Int, 0 ≤ index → ∃ d, getPhotoData index = Except.ok d) ∧
    (∀ s : ControllerState, Reachable s → ∀ c ∈ s.cards,
       0 ≤ c.currentPhotoIndex ∧
       isOkE (getPhotoData c.currentPhotoIndex) = true) := by
  refine ⟨?_, ?_, ?_⟩
  · intro i hi
    unfold getPhotoData
    rw [if_pos hi]
  · intro i hi
    unfold getPhotoData
    rw [if_neg (by omega)]
    by_cases h2 : i < (photoImages.length : Int)
    · rw [if_pos h2]; exact ⟨_, rfl⟩
    · rw [if_neg h2]; exact ⟨_, rfl⟩
  · intro s hs c hc
    have hb := (ctrlInv_reachable s hs).validCards.photos c hc
    refine ⟨hb.1, ?_⟩
    unfold getPhotoData
    rw [if_neg (by omega)]
    split <;> rfl

/-- Witness for C9: `getPhotoData (-1)` errors, `getPhotoData 3` succeeds,
and the mounted state's front card has a non-negative index on which
`getPhotoData` succeeds. -/
theorem c9_negative_index_guard_witness :
    getPhotoData (-1) = Except.error "Invalid card index: -1. Must be >= 0" ∧
    (∃ d, getPhotoData 3 = Except.ok d) ∧
    (0 ≤ (⟨CardId.CARD_A, Position.center, 5, 0⟩ : Card).currentPhotoIndex ∧
      isOkE (getPhotoData
        (⟨CardId.CARD_A, Position.center, 5, 0⟩ : Card).currentPhotoIndex) = true) := by
  refine ⟨?_, c9_negative_index_guard.2.1 3 (by norm_num), ?_⟩
  · have h := c9_negative_index_guard.1 (-1) (by norm_num)
    rw [h]; rfl
  · exact c9_negative_index_guard.2.2 initState Relation.ReflTransGen.refl
      ⟨CardId.CARD_A, Position.center, 5, 0⟩ (by decide)

theorem swapPhotoBackShuffle_cases (cards : List Card) :
    swapPhotoBackShuffle cards = cards ∨
    ∃ v : Int, swapPhotoBackShuffle cards =
      updateFirstBy (isAt Position.centerBack)
        (fun c => { c with currentPhotoIndex := v }) cards := by
  unfold swapPhotoBackShuffle
  cases h1 : cards.find? (isAt Position.centerBack) with
  | none =>
    cases h2 : cards.find? (isAt Position.center) with
    | none => exact Or.inl rfl
    | some cc => exact Or.inl rfl
  | some cb =>
    cases h2 : cards.find? (isAt Position.center) with
    | none => exact Or.inl rfl
    | some cc => exact Or.inr ⟨_, rfl⟩

theorem updateFirstBy_getElem?_map_field {β : Type} (g : Card → β)
    (p : Card → Bool) (f : Card → Card) (cs : List Card)
    (hf : ∀ c, g (f c) = g c) (i : Nat) :
    (updateFirstBy p f cs)[i]?.map g = cs[i]?.map g := by
  have h := updateFirstBy_map_field g p f cs hf
  have h2 := congrArg (fun l => l[i]?) h
  simpa [List.getElem?_map] using h2

theorem updateFirstBy_getElem?_of_not_p (p : Card → Bool) (f : Card → Card)
    (cs : List Card) (i : Nat) (c : Card)
    (hc : cs[i]? = some c) (hp : p c = false) :
    (updateFirstBy p f cs)[i]? = some c := by
  rcases updateFirstBy_getElem? p f cs i with h | ⟨c2, hc2, hpc2, hres⟩
  · rw [h, hc]
  · rw [hc] at hc2
    injection hc2 with he
    subst he
    rw [hpc2] at hp
    cases hp

/-- C10: the photo-swap helpers are frame-preserving: `swapPhotoOnCardID`
changes at most the `currentPhotoIndex` of the card with the given id, and
`swapPhotoBackShuffle` at most that of the card in slot `centerBack`;
every card's id, position and zIndex, and every other card's photo index,
are preserved position-wise, and the lengths are unchanged (the embedding
is pure, matching the JS helpers' copy-then-return discipline). -/
theorem c10_photo_swap_frame (cardId : CardId) (cards : List Card) (i : Nat) :
    (swapPhotoOnCardID cardId cards).length = cards.length ∧
    (swapPhotoBackShuffle cards).length = cards.length ∧
    ((swapPhotoOnCardID cardId cards)[i]?.map Card.id = cards[i]?.map Card.id ∧
     (swapPhotoOnCardID cardId cards)[i]?.map Card.position =
       cards[i]?.map Card.position ∧
     (swapPhotoOnCardID cardId cards)[i]?.map Card.zIndex =
       cards[i]?.map Card.zIndex) ∧
    ((swapPhotoBackShuffle cards)[i]?.map Card.id = cards[i]?.map Card.id ∧
     (swapPhotoBackShuffle cards)[i]?.map Card.position =
       cards[i]?.map Card.position ∧
     (swapPhotoBackShuffle cards)[i]?.map Card.zIndex =
       cards[i]?.map Card.zIndex) ∧
    (∀ c : Card, cards[i]? = some c → c.id ≠ cardId →
       (swapPhotoOnCardID cardId cards)[i]? = some c) ∧
    (∀ c : Card, cards[i]? = some c → c.position ≠ Position.centerBack →
       (swapPhotoBackShuffle cards)[i]? = some c) := by
  refine ⟨updateFirstBy_length _ _ cards, ?_, ?_, ?_, ?_, ?_⟩
  · rcases swapPhotoBackShuffle_cases cards with h | ⟨v, h⟩
    · rw [h]
    · rw [h]; exact updateFirstBy_length _ _ cards
  · unfold swapPhotoOnCardID
    refine ⟨?_, ?_, ?_⟩ <;> (apply updateFirstBy_getElem?_map_field; intro c; rfl)
  · rcases swapPhotoBackShuffle_cases cards with h | ⟨v, h⟩
    · rw [h]; exact ⟨rfl, rfl, rfl⟩
    · rw [h]
      refine ⟨?_, ?_, ?_⟩ <;> (apply updateFirstBy_getElem?_map_field; intro c; rfl)
  · intro c hc hne
    exact updateFirstBy_getElem?_of_not_p _ _ cards i c hc (by simp [hasId, hne])
  · intro c hc hne
    rcases swapPhotoBackShuffle_cases cards with h | ⟨v, h⟩
    · rw [h]; exact hc
    · rw [h]
      exact updateFirstBy_getElem?_of_not_p _ _ cards i c hc (by simp [isAt, hne])

/-- Witness for C10 at a concrete input: swapping card B's photo leaves
the front card (index 0) untouched. -/
theorem c10_photo_swap_frame_witness :
    initializeCards[0]? = some ⟨CardId.CARD_A, Position.center, 5, 0⟩ ∧
    (swapPhotoOnCardID CardId.CARD_B initializeCards)[0]? =
      some ⟨CardId.CARD_A, Position.center, 5, 0⟩ ∧
    (swapPhotoBackShuffle initializeCards)[0]? =
      some ⟨CardId.CARD_A, Position.center, 5, 0⟩ := by
  have h := c10_photo_swap_frame CardId.CARD_B initializeCards 0
  refine ⟨by decide, ?_, ?_⟩
  · exact h.2.2.2.2.1 ⟨CardId.CARD_A, Position.center, 5, 0⟩ (by decide) (by decide)
  · exact h.2.2.2.2.2 ⟨CardId.CARD_A, Position.center, 5, 0⟩ (by decide) (by decide)

/-- C1: every shuffle request (forward or backward, click or gesture)
arriving while the input lock is held (`isAnimatingRef` or
`buttonsDisabled`) leaves the controller state exactly as it was (only the
clock advances): dropped silently, no queueing; and when a request is
accepted, both lock fields are set synchronously in the very step that
processes the request, while all newly scheduled work lies strictly in the
future. -/
theorem c1_lock_drops_requests :
    (∀ (s : ControllerState) (t : Nat) (x y : Int),
       s.isAnimating = true ∨ s.buttonsDisabled = true →
       stepInput s InputEvent.forwardClick t = { s with now := t } ∧
       stepInput s InputEvent.backwardClick t = { s with now := t } ∧
       stepInput s (InputEvent.touchEnd x y) t = { s with now := t }) ∧
    (∀ (s : ControllerState) (t : Nat),
       s.isAnimating = false → s.buttonsDisabled = false →
       ((stepInput s InputEvent.forwardClick t).isAnimating = true ∧
        (stepInput s InputEvent.forwardClick t).buttonsDisabled = true ∧
        ∀ tm ∈ (stepInput s InputEvent.forwardClick t).pending,
          tm ∉ s.pending → t < tm.time) ∧
       ((stepInput s InputEvent.backwardClick t).isAnimating = true ∧
        (stepInput s InputEvent.backwardClick t).buttonsDisabled = true ∧
        ∀ tm ∈ (stepInput s InputEvent.backwardClick t).pending,
          tm ∉ s.pending → t < tm.time)) := by
  constructor
  · intro s t x y hlock
    have hcond : (s.isAnimating || s.buttonsDisabled) = true := by
      rcases hlock with hl | hl <;> simp [hl]
    have hcond2 : (!s.hasCompletedEntrance || s.isAnimating || s.buttonsDisabled)
        = true := by
      rcases hlock with hl | hl <;> simp [hl]
    refine ⟨?_, ?_, ?_⟩
    · show handleForwardShuffle { s with now := t } = { s with now := t }
      unfold handleForwardShuffle
      rw [if_pos hcond]
    · show handleBackwardShuffle { s with now := t } = { s with now := t }
      unfold handleBackwardShuffle
      rw [if_pos hcond]
    · show handleTouchEnd { s with now := t } x y = { s with now := t }
      unfold handleTouchEnd
      rw [if_pos hcond2]
  · intro s t hA hB
    have hcond : ¬ (s.isAnimating || s.buttonsDisabled) = true := by
      simp [hA, hB]
    have hd : configSettings.SHUFFLE_DELAY = 300 := rfl
    constructor
    · refine ⟨?_, ?_, ?_⟩
      · show (handleForwardShuffle { s with now := t }).isAnimating = true
        unfold handleForwardShuffle
        rw [if_neg hcond]
      · show (handleForwardShuffle { s with now := t }).buttonsDisabled = true
        unfold handleForwardShuffle
        rw [if_neg hcond]
      · intro tm hm hnotold
        show t < tm.time
        revert hm
        show tm ∈ (handleForwardShuffle { s with now := t }).pending → t < tm.time
        unfold handleForwardShuffle
        rw [if_neg hcond]
        intro hm
        simp only [List.mem_append, List.mem_cons, List.not_mem_nil, or_false] at hm
        rcases hm with hm | rfl | rfl | rfl
        · exact absurd hm hnotold
        · dsimp only; omega
        · dsimp only; omega
        · dsimp only; omega
    · refine ⟨?_, ?_, ?_⟩
      · show (handleBackwardShuffle { s with now := t }).isAnimating = true
        unfold handleBackwardShuffle
        rw [if_neg hcond]
      · show (handleBackwardShuffle { s with now := t }).buttonsDisabled = true
        unfold handleBackwardShuffle
        rw [if_neg hcond]
      · intro tm hm hnotold
        show t < tm.time
        revert hm
        show tm ∈ (handleBackwardShuffle { s with now := t }).pending → t < tm.time
        unfold handleBackwardShuffle
        rw [if_neg hcond]
        intro hm
        simp only [List.mem_append, List.mem_cons, List.not_mem_nil, or_false] at hm
        rcases hm with hm | rfl | rfl
        · exact absurd hm hnotold
        · dsimp only; omega
        · dsimp only
          have h150 : configSettings.SHUFFLE_DELAY / 2 = 150 := rfl
          omega

/-- Witness for C1: in a concrete locked state a forward click is a no-op
(clock aside), and in the unlocked mounted state a forward click sets both
lock fields in the same step. -/
theorem c1_lock_drops_requests_witness :
    stepInput lockedState InputEvent.forwardClick 42 = { lockedState with now := 42 } ∧
    (stepInput initState InputEvent.forwardClick 0).isAnimating = true := by
  refine ⟨(c1_lock_drops_requests.1 lockedState 42 0 0 (Or.inl (by decide))).1, ?_⟩
  exact ((c1_lock_drops_requests.2 initState 0 rfl rfl).1).1

/-- Counterexample to C6: in the reachable state right after a backward
request, the scheduled new-z-order commit has deadline
`SHUFFLE_DELAY / 2` = 150 ms, not `SHUFFLE_DELAY` = 300 ms; the unlock is
the only timer at `SHUFFLE_DELAY`.  The new z-order is therefore not
committed at the delay at which the lock is released. -/
theorem c6_backward_commit_counterexample :
    Reachable backwardOnceState ∧
    backwardOnceState.pending.countP
      (fun tm => isCommit tm.act && decide (tm.time = configSettings.SHUFFLE_DELAY)) = 0 ∧
    backwardOnceState.pending.countP
      (fun tm => isCommit tm.act && decide (tm.time = configSettings.SHUFFLE_DELAY / 2)) = 1 ∧
    backwardOnceState.pending.countP
      (fun tm => isUnlock tm.act && decide (tm.time = configSettings.SHUFFLE_DELAY)) = 1 ∧
    configSettings.SHUFFLE_DELAY / 2 ≠ configSettings.SHUFFLE_DELAY := by
  refine ⟨Relation.ReflTransGen.single ?_, by decide, by decide, by decide, by decide⟩
  exact EventStep.input initState InputEvent.backwardClick 0 (Nat.le_refl 0)
    (fun tm hm => nomatch hm)

/-- C6 as amended: in the backward shuffle sequence the new z-order is
committed `SHUFFLE_DELAY / 2` (150) ms after the request, while the lock
is released at `SHUFFLE_DELAY` (300) ms — the commit fires at half the
delay, before the unlock, not at the same delay. -/
theorem c6_backward_commit_half_delay (s : ControllerState)
    (hA : s.isAnimating = false) (hB : s.buttonsDisabled = false) :
    (handleBackwardShuffle s).pending = s.pending ++
      [ ⟨s.now + configSettings.SHUFFLE_DELAY, s.seqCounter, Pending.unlock⟩,
        ⟨s.now + configSettings.SHUFFLE_DELAY / 2, s.seqCounter + 1,
          Pending.commitCards (executeBackwardShuffle
            (swapPhotoBackShuffle s.cards)).cardsWithNewZIndex⟩ ] ∧
    configSettings.SHUFFLE_DELAY = 300 ∧
    configSettings.SHUFFLE_DELAY / 2 = 150 := by
  refine ⟨?_, rfl, rfl⟩
  unfold handleBackwardShuffle
  rw [if_neg (by simp [hA, hB])]

/-- Witness for the amended C6 in the mounted state. -/
theorem c6_backward_commit_half_delay_witness :
    (handleBackwardShuffle initState).pending = initState.pending ++
      [ ⟨initState.now + configSettings.SHUFFLE_DELAY, initState.seqCounter,
          Pending.unlock⟩,
        ⟨initState.now + configSettings.SHUFFLE_DELAY / 2, initState.seqCounter + 1,
          Pending.commitCards (executeBackwardShuffle
            (swapPhotoBackShuffle initState.cards)).cardsWithNewZIndex⟩ ] :=
  (c6_backward_commit_half_delay initState rfl rfl).1

/-- Counterexample to C2 as stated: in the (reachable) mounted state the
six z-index values are {0,…,5}, not {1,…,6} — no card carries z-index 6,
and one card carries z-index 0 (in-source corroboration: `card.zIndex === 5`
is the highest card, and the entrance stagger guards z-index 0). -/
theorem c2_zIndex_range_counterexample :
    Reachable initState ∧
    ¬ (initState.cards.map Card.zIndex).Perm [1, 2, 3, 4, 5, 6] ∧
    (initState.cards.map Card.zIndex).Perm [0, 1, 2, 3, 4, 5] :=
  ⟨Relation.ReflTransGen.refl, by decide, by decide⟩

/-- C2 as amended: in every reachable state, the six cards carry the six
distinct ids, occupy six distinct slots (card-to-slot bijection), and
their z-index values are a bijection onto {0,…,5} (not {1,…,6}). -/
theorem c2_reachable_bijection (s : ControllerState) (h : Reachable s) :
    (s.cards.map Card.id).Perm allIds ∧
    (s.cards.map Card.position).Perm allPositions ∧
    (s.cards.map Card.zIndex).Perm [0, 1, 2, 3, 4, 5] := by
  have hv := (ctrlInv_reachable s h).validCards
  exact ⟨hv.ids, hv.poss, hv.zs.trans (by decide)⟩

/-- Witness for the amended C2 at the mounted state. -/
theorem c2_reachable_bijection_witness :
    (initState.cards.map Card.id).Perm allIds ∧
    (initState.cards.map Card.position).Perm allPositions ∧
    (initState.cards.map Card.zIndex).Perm [0, 1, 2, 3, 4, 5] :=
  c2_reachable_bijection initState Relation.ReflTransGen.refl

/-- C3: in every reachable state, each pending z-order phase commit is
scheduled strictly before every pending unlock, and whenever the lock is
free (so a new shuffle request would pass the lock check) no z-order
phase-commit callback of any earlier shuffle is still pending — both
phase commits have fired before a new shuffle's lock can be acquired. -/
theorem c3_commits_fire_before_relock (s : ControllerState) (h : Reachable s) :
    (∀ tmc ∈ s.pending, ∀ tmu ∈ s.pending, isCommit tmc.act = true →
       isUnlock tmu.act = true → tmc.time < tmu.time) ∧
    (s.isAnimating = false → s.buttonsDisabled = false →
       s.pending.countP (fun tm => isCommit tm.act) = 0 ∧
       s.pending.countP (fun tm => isUnlock tm.act) = 0) := by
  have hi := ctrlInv_reachable s h
  exact ⟨hi.commitBeforeUnlock,
    fun hA _ => ⟨hi.noCommitWhenFree hA, hi.noUnlockWhenFree hA⟩⟩

/-- Witness for C3 at the mounted state (lock free, no pending commits). -/
theorem c3_commits_fire_before_relock_witness :
    initState.pending.countP (fun tm => isCommit tm.act) = 0 ∧
    initState.pending.countP (fun tm => isUnlock tm.act) = 0 :=
  (c3_commits_fire_before_relock initState Relation.ReflTransGen.refl).2 rfl rfl

/-- C5: for a backward shuffle from a state whose center card has photo
index `centerIndex` (0 ≤ centerIndex < 12), `swapPhotoBackShuffle` assigns
the centerBack card photo index `(centerIndex - 1) mod 12`; and in
`handleBackwardShuffle` this assignment is made strictly before the slot
reassignment: the committed old-z-order array and the scheduled
new-z-order array are both computed by `executeBackwardShuffle` from the
already-updated card array. -/
theorem c5_backward_photo_precompute (cards : List Card) (h : ValidCards cards)
    (cc : Card) (hcc : cc ∈ cards) (hpos : cc.position = Position.center) :
    photoImages.length = 12 ∧
    (∀ cb ∈ swapPhotoBackShuffle cards, cb.position = Position.centerBack →
       cb.currentPhotoIndex = (cc.currentPhotoIndex - 1) % 12) ∧
    (∀ s : ControllerState, s.isAnimating = false → s.buttonsDisabled = false →
       s.cards = cards →
       (handleBackwardShuffle s).cards =
         (executeBackwardShuffle (swapPhotoBackShuffle cards)).cardsWithOldZIndex ∧
       ∃ tm ∈ (handleBackwardShuffle s).pending,
         tm.act = Pending.commitCards
           (executeBackwardShuffle (swapPhotoBackShuffle cards)).cardsWithNewZIndex) := by
  have hfc : cards.find? (isAt Position.center) = some cc :=
    find?_key_of_mem Card.position Position.center cards h.nodup_pos cc hcc hpos
  obtain ⟨cb0, hcb0, hcb0pos⟩ := h.exists_pos Position.centerBack
  have hfb : cards.find? (isAt Position.centerBack) = some cb0 :=
    find?_key_of_mem Card.position Position.centerBack cards h.nodup_pos cb0 hcb0
      hcb0pos
  have hlenInt : (photoImages.length : Int) = 12 := rfl
  have hb := h.photos cc hcc
  refine ⟨rfl, ?_, ?_⟩
  · intro cb hcb hcbpos
    have hswap : swapPhotoBackShuffle cards =
        updateFirstBy (isAt Position.centerBack)
          (fun c => { c with currentPhotoIndex :=
            if cc.currentPhotoIndex = 0 then (photoImages.length : Int) - 1
            else cc.currentPhotoIndex - 1 }) cards := by
      unfold swapPhotoBackShuffle
      rw [hfb, hfc]
    rw [hswap] at hcb
    obtain ⟨i, hi⟩ := List.mem_iff_getElem?.mp hcb
    have hi_lt : i < cards.length := by
      have hlen := updateFirstBy_length (isAt Position.centerBack)
        (fun c => { c with currentPhotoIndex :=
          if cc.currentPhotoIndex = 0 then (photoImages.length : Int) - 1
          else cc.currentPhotoIndex - 1 }) cards
      have := (List.getElem?_eq_some.mp hi).1
      omega
    have hc : cards[i]? = some cards[i] := List.getElem?_eq_getElem hi_lt
    have hpoint := updateFirstBy_key_getElem? Card.position Position.centerBack
      (fun c => { c with currentPhotoIndex :=
        if cc.currentPhotoIndex = 0 then (photoImages.length : Int) - 1
        else cc.currentPhotoIndex - 1 }) cards h.nodup_pos i cards[i] hc
    have hcb_eq : cb = (if cards[i].position = Position.centerBack
        then { cards[i] with currentPhotoIndex :=
          if cc.currentPhotoIndex = 0 then (photoImages.length : Int) - 1
          else cc.currentPhotoIndex - 1 }
        else cards[i]) := by
      have := hi.symm.trans hpoint
      exact Option.some_inj.mp this
    by_cases hcase : cards[i].position = Position.centerBack
    · rw [if_pos hcase] at hcb_eq
      rw [hcb_eq]
      dsimp only
      by_cases h0 : cc.currentPhotoIndex = 0
      · rw [if_pos h0, h0, hlenInt]
        decide
      · rw [if_neg h0]
        have : (cc.currentPhotoIndex - 1) % 12 = cc.currentPhotoIndex - 1 :=
          Int.emod_eq_of_lt (by omega) (by omega)
        rw [this]
    · rw [if_neg hcase] at hcb_eq
      rw [hcb_eq] at hcbpos
      exact absurd hcbpos hcase
  · intro s hA hB hcards
    have hcond : ¬ (s.isAnimating || s.buttonsDisabled) = true := by simp [hA, hB]
    constructor
    · show (handleBackwardShuffle s).cards = _
      unfold handleBackwardShuffle
      rw [if_neg hcond, hcards]
    · refine ⟨⟨s.now + configSettings.SHUFFLE_DELAY / 2, s.seqCounter + 1,
        Pending.commitCards (executeBackwardShuffle
          (swapPhotoBackShuffle cards)).cardsWithNewZIndex⟩, ?_, rfl⟩
      unfold handleBackwardShuffle
      rw [if_neg hcond, hcards]
      simp

/-- Witness for C5 at the mounted state: the center card shows photo 0, so
the centerBack card is pre-assigned photo (0 - 1) mod 12 = 11. -/
theorem c5_backward_photo_precompute_witness :
    ((0 : Int) - 1) % 12 = 11 ∧
    (∀ cb ∈ swapPhotoBackShuffle initializeCards,
       cb.position = Position.centerBack → cb.currentPhotoIndex = ((0 : Int) - 1) % 12) ∧
    (handleBackwardShuffle initState).cards =
      (executeBackwardShuffle (swapPhotoBackShuffle initializeCards)).cardsWithOldZIndex := by
  have h := c5_backward_photo_precompute initializeCards validCards_init
    ⟨CardId.CARD_A, Position.center, 5, 0⟩ (by decide) rfl
  exact ⟨by decide, h.2.1, (h.2.2 initState rfl rfl rfl).1⟩

/-- C4: after a completed forward shuffle the flown card — the card that
held the front slot — has its photo index advanced by 6 modulo the gallery
size 12, and every other card's photo index is unchanged; the controller
schedules exactly this photo-advance commit (at `SHUFFLE_DELAY + 100`) on
the post-shuffle card array. -/
theorem c4_forward_photo_advance (cards : List Card) (h : ValidCards cards) :
    photoImages.length = 12 ∧
    (∀ c ∈ cards, c.position = Position.center →
       (executeForwardShuffle cards).flyingCardId = c.id) ∧
    (∀ (i : Nat) (c : Card), cards[i]? = some c →
       ∃ c' : Card,
         (swapPhotoOnCardID (executeForwardShuffle cards).flyingCardId
           (executeForwardShuffle cards).cardsWithNewZIndex)[i]? = some c' ∧
         c'.id = c.id ∧
         c'.currentPhotoIndex =
           (if c.id = (executeForwardShuffle cards).flyingCardId
            then (c.currentPhotoIndex + 6) % 12
            else c.currentPhotoIndex)) ∧
    (∀ s : ControllerState, s.isAnimating = false → s.buttonsDisabled = false →
       s.cards = cards →
       ∃ tm ∈ (handleForwardShuffle s).pending,
         tm.act = Pending.commitPhotoSwap (executeForwardShuffle cards).flyingCardId
           (executeForwardShuffle cards).cardsWithNewZIndex ∧
         (applyTimer (handleForwardShuffle s) tm).cards =
           swapPhotoOnCardID (executeForwardShuffle cards).flyingCardId
             (executeForwardShuffle cards).cardsWithNewZIndex) := by
  refine ⟨rfl, ?_, ?_, ?_⟩
  · intro c hc hpos
    have hfc : cards.find? (isAt Position.center) = some c :=
      find?_key_of_mem Card.position Position.center cards h.nodup_pos c hc hpos
    simp [executeForwardShuffle, hfc]
  · intro i c hc
    have hmid : (executeForwardShuffle cards).cardsWithNewZIndex[i]? =
        some ⟨c.id, forwardNext c.position, slotZ (forwardNext c.position),
          c.currentPhotoIndex⟩ := by
      have hrepr : (executeForwardShuffle cards).cardsWithNewZIndex =
          (cards.map fun c2 =>
            (⟨c2.id, forwardNext c2.position, c2.zIndex, c2.currentPhotoIndex⟩ : Card)).map
            (fun c2 => (⟨c2.id, c2.position, slotZ c2.position, c2.currentPhotoIndex⟩ : Card)) :=
        rfl
      rw [hrepr]
      simp [List.getElem?_map, hc]
    have hnd : ((executeForwardShuffle cards).cardsWithNewZIndex.map Card.id).Nodup :=
      (validCards_forward_new cards h).nodup_id
    have hpoint := updateFirstBy_key_getElem? Card.id
      (executeForwardShuffle cards).flyingCardId
      (fun c2 => (⟨c2.id, c2.position, c2.zIndex,
        jsRem (c2.currentPhotoIndex + 6) (photoImages.length : Int)⟩ : Card))
      (executeForwardShuffle cards).cardsWithNewZIndex hnd i
      ⟨c.id, forwardNext c.position, slotZ (forwardNext c.position),
        c.currentPhotoIndex⟩ hmid
    have hb := h.photos c (mem_of_getElem?_card cards i c hc)
    have hlenInt : (photoImages.length : Int) = 12 := rfl
    by_cases hfly : c.id = (executeForwardShuffle cards).flyingCardId
    · refine ⟨⟨c.id, forwardNext c.position, slotZ (forwardNext c.position),
        jsRem (c.currentPhotoIndex + 6) (photoImages.length : Int)⟩, ?_, rfl, ?_⟩
      · rw [show (swapPhotoOnCardID (executeForwardShuffle cards).flyingCardId
            (executeForwardShuffle cards).cardsWithNewZIndex)[i]? =
            some (if c.id = (executeForwardShuffle cards).flyingCardId
              then ⟨c.id, forwardNext c.position, slotZ (forwardNext c.position),
                jsRem (c.currentPhotoIndex + 6) (photoImages.length : Int)⟩
              else ⟨c.id, forwardNext c.position, slotZ (forwardNext c.position),
                c.currentPhotoIndex⟩) from hpoint]
        rw [if_pos hfly]
      · rw [if_pos hfly]
        dsimp only
        rw [hlenInt, jsRem_of_nonneg _ _ (by omega)]
    · refine ⟨⟨c.id, forwardNext c.position, slotZ (forwardNext c.position),
        c.currentPhotoIndex⟩, ?_, rfl, ?_⟩
      · rw [show (swapPhotoOnCardID (executeForwardShuffle cards).flyingCardId
            (executeForwardShuffle cards).cardsWithNewZIndex)[i]? =
            some (if c.id = (executeForwardShuffle cards).flyingCardId
              then ⟨c.id, forwardNext c.position, slotZ (forwardNext c.position),
                jsRem (c.currentPhotoIndex + 6) (photoImages.length : Int)⟩
              else ⟨c.id, forwardNext c.position, slotZ (forwardNext c.position),
                c.currentPhotoIndex⟩) from hpoint]
        rw [if_neg hfly]
      · rw [if_neg hfly]
  · intro s hA hB hcards
    have hcond : ¬ (s.isAnimating || s.buttonsDisabled) = true := by simp [hA, hB]
    refine ⟨⟨s.now + (configSettings.SHUFFLE_DELAY + 100), s.seqCounter + 2,
      Pending.commitPhotoSwap (executeForwardShuffle cards).flyingCardId
        (executeForwardShuffle cards).cardsWithNewZIndex⟩, ?_, rfl, rfl⟩
    unfold handleForwardShuffle
    rw [if_neg hcond, hcards]
    simp

/-- Witness for C4 at the mounted state: the flying card is the front card
A; after the swap, the card at index 0 of the committed array is card A
with photo index (0 + 6) mod 12 = 6. -/
theorem c4_forward_photo_advance_witness :
    (executeForwardShuffle initializeCards).flyingCardId = CardId.CARD_A ∧
    (∃ c' : Card,
       (swapPhotoOnCardID (executeForwardShuffle initializeCards).flyingCardId
         (executeForwardShuffle initializeCards).cardsWithNewZIndex)[0]? = some c' ∧
       c'.id = CardId.CARD_A ∧ c'.currentPhotoIndex = 6) := by
  have h := c4_forward_photo_advance initializeCards validCards_init
  have h21 := h.2.1 ⟨CardId.CARD_A, Position.center, 5, 0⟩ (by decide) rfl
  obtain ⟨c', hc', hid, hphoto⟩ :=
    h.2.2.1 0 ⟨CardId.CARD_A, Position.center, 5, 0⟩ (by decide)
  refine ⟨h21, c', hc', hid, ?_⟩
  rw [hphoto, if_pos (by rw [h21])]
  decide

theorem hce_applyTimer (s : ControllerState) (tm : Timer) :
    (applyTimer s tm).hasCompletedEntrance = s.hasCompletedEntrance := by
  cases hact : tm.act <;> simp [applyTimer, hact]

theorem hce_handleForward (s : ControllerState) :
    (handleForwardShuffle s).hasCompletedEntrance = s.hasCompletedEntrance := by
  unfold handleForwardShuffle
  split <;> rfl

theorem hce_handleBackward (s : ControllerState) :
    (handleBackwardShuffle s).hasCompletedEntrance = s.hasCompletedEntrance := by
  unfold handleBackwardShuffle
  split <;> rfl

theorem hce_handleTouchEnd (s : ControllerState) (x y : Int) :
    (handleTouchEnd s x y).hasCompletedEntrance = s.hasCompletedEntrance := by
  unfold handleTouchEnd
  split
  · rfl
  · dsimp only
    split
    · split
      · exact hce_handleBackward s
      · exact hce_handleForward s
    · rfl

theorem hce_onAnimationComplete_true (s : ControllerState) (id : CardId)
    (defn : AnimationState) (h : s.hasCompletedEntrance = true) :
    (onAnimationComplete s id defn).hasCompletedEntrance = true := by
  unfold onAnimationComplete
  split
  · exact h
  · dsimp only
    have hons : ¬ (defn = AnimationState.ONSCREEN ∧
        (match s.cards.find? (hasId id) with
          | some c => decide (c.zIndex = 5)
          | none => false) = true ∧ s.hasCompletedEntrance = false) := by
      intro hc
      rw [h] at hc
      exact absurd hc.2.2 (by simp)
    rw [if_neg hons]
    split
    · exact h
    · exact h

theorem onAnimationComplete_flip (s : ControllerState) (id : CardId)
    (defn : AnimationState)
    (hf : s.hasCompletedEntrance = false)
    (ht : (onAnimationComplete s id defn).hasCompletedEntrance = true) :
    defn = AnimationState.ONSCREEN ∧
    s.animationStates id = AnimationState.ONSCREEN ∧
    (∃ c, s.cards.find? (hasId id) = some c ∧ c.zIndex = 5) ∧
    onAnimationComplete s id defn =
      { s with hasCompletedEntrance := true
               animationStates := fun _ => AnimationState.MOVE_TO_POSITION } := by
  unfold onAnimationComplete at ht ⊢
  split at ht
  · rw [hf] at ht; cases ht
  · rename_i hguard
    have hstate : s.animationStates id = defn := not_not.mp hguard
    rw [if_neg (fun hcon => hguard (fun hx => by rw [hx] at hcon; exact hcon rfl))]
    dsimp only at ht ⊢
    by_cases hons : defn = AnimationState.ONSCREEN ∧
        (match s.cards.find? (hasId id) with
          | some c => decide (c.zIndex = 5)
          | none => false) = true ∧ s.hasCompletedEntrance = false
    · have hfly : ¬ (defn = AnimationState.FLY_LEFT ∨
          defn = AnimationState.FLY_RIGHT) := by
        rintro (h1 | h1) <;> rw [hons.1] at h1 <;> cases h1
      rw [if_pos hons, if_neg hfly]
      refine ⟨hons.1, hstate.trans hons.1, ?_, rfl⟩
      have hz := hons.2.1
      cases hfind : s.cards.find? (hasId id) with
      | none => rw [hfind] at hz; cases hz
      | some cfound =>
        rw [hfind] at hz
        simp only [decide_eq_true_eq] at hz
        exact ⟨cfound, rfl, hz⟩
    · exfalso
      rw [if_neg hons] at ht
      split at ht
      · rw [hf] at ht; cases ht
      · rw [hf] at ht; cases ht

/-- C7: `hasCompletedEntrance` never resets (so it flips false→true at
most once per mount), and a flip happens only when the card holding the
highest z-index (z-index 5, the maximum in any reachable state) reports
completion of its ONSCREEN entrance animation — which requires the widget
to have entered the viewport — and at that moment every card's animation
state is set to MOVE_TO_POSITION. -/
theorem c7_entrance_gating :
    (∀ s s' : ControllerState, EventStep s s' →
       s.hasCompletedEntrance = true → s'.hasCompletedEntrance = true) ∧
    (∀ s s' : ControllerState, Reachable s → EventStep s s' →
       s.hasCompletedEntrance = false → s'.hasCompletedEntrance = true →
       s.everInView = true ∧
       (∀ i, s'.animationStates i = AnimationState.MOVE_TO_POSITION) ∧
       (∃ id2, s.animationStates id2 = AnimationState.ONSCREEN ∧
          ∃ c ∈ s.cards, c.id = id2 ∧ c.zIndex = 5 ∧
            ∀ c2 ∈ s.cards, c2.zIndex ≤ 5)) := by
  constructor
  · intro s s' hstep hce
    cases hstep with
    | timer tm hmem hmin => rw [hce_applyTimer]; exact hce
    | input e t hnow hfresh =>
      cases e with
      | enterViewport =>
        show (handleInput { s with now := t } InputEvent.enterViewport).hasCompletedEntrance = true
        dsimp only [handleInput]
        split <;> exact hce
      | leaveViewport => exact hce
      | animationComplete id defn =>
        exact hce_onAnimationComplete_true { s with now := t } id defn hce
      | forwardClick => exact (hce_handleForward { s with now := t }).trans hce
      | backwardClick => exact (hce_handleBackward { s with now := t }).trans hce
      | touchStart x y => exact hce
      | touchEnd x y => exact (hce_handleTouchEnd { s with now := t } x y).trans hce
  · intro s s' hreach hstep hf ht
    cases hstep with
    | timer tm hmem hmin =>
      exfalso
      rw [hce_applyTimer, hf] at ht
      cases ht
    | input e t hnow hfresh =>
      cases e with
      | animationComplete id defn =>
        have hmain := onAnimationComplete_flip { s with now := t } id defn hf ht
        obtain ⟨hdefn, honscreen, ⟨cf, hfind, hz5⟩, heq⟩ := hmain
        have hinv := ctrlInv_reachable s hreach
        have hidf : cf.id = id := by
          have := List.find?_some hfind
          simpa [hasId] using this
        refine ⟨hinv.onscreenInView id honscreen, ?_, id, honscreen, cf,
          List.mem_of_find?_eq_some hfind, hidf, hz5,
          fun c2 hc2 => hinv.validCards.z_le_five c2 hc2⟩
        intro i
        show (stepInput s (InputEvent.animationComplete id defn) t).animationStates i =
          AnimationState.MOVE_TO_POSITION
        have heq2 : stepInput s (InputEvent.animationComplete id defn) t =
            { s with now := t
                     hasCompletedEntrance := true
                     animationStates := fun _ => AnimationState.MOVE_TO_POSITION } := heq
        rw [heq2]
      | enterViewport =>
        exfalso
        have h2 : (stepInput s InputEvent.enterViewport t).hasCompletedEntrance =
            s.hasCompletedEntrance := by
          dsimp only [stepInput, handleInput]
          split <;> rfl
        rw [h2, hf] at ht
        cases ht
      | leaveViewport =>
        exfalso
        have h2 : (stepInput s InputEvent.leaveViewport t).hasCompletedEntrance =
            s.hasCompletedEntrance := rfl
        rw [h2, hf] at ht
        cases ht
      | forwardClick =>
        exfalso
        have h2 : (stepInput s InputEvent.forwardClick t).hasCompletedEntrance =
            s.hasCompletedEntrance := hce_handleForward { s with now := t }
        rw [h2, hf] at ht
        cases ht
      | backwardClick =>
        exfalso
        have h2 : (stepInput s InputEvent.backwardClick t).hasCompletedEntrance =
            s.hasCompletedEntrance := hce_handleBackward { s with now := t }
        rw [h2, hf] at ht
        cases ht
      | touchStart x y =>
        exfalso
        have h2 : (stepInput s (InputEvent.touchStart x y) t).hasCompletedEntrance =
            s.hasCompletedEntrance := rfl
        rw [h2, hf] at ht
        cases ht
      | touchEnd x y =>
        exfalso
        have h2 : (stepInput s (InputEvent.touchEnd x y) t).hasCompletedEntrance =
            s.hasCompletedEntrance := hce_handleTouchEnd { s with now := t } x y
        rw [h2, hf] at ht
        cases ht

/-- Witness for C7: the concrete entrance flip — viewport entry followed
by the ONSCREEN completion of the z-index-5 card — happens only in view
and moves every card to MOVE_TO_POSITION. -/
theorem c7_entrance_gating_witness :
    inViewState.everInView = true ∧
    entranceDoneState.animationStates CardId.CARD_B =
      AnimationState.MOVE_TO_POSITION := by
  have h := c7_entrance_gating.2 inViewState entranceDoneState
    (Relation.ReflTransGen.single
      (EventStep.input initState InputEvent.enterViewport 0 (Nat.le_refl 0)
        (fun tm _ => Nat.zero_le tm.time)))
    (EventStep.input inViewState
      (InputEvent.animationComplete CardId.CARD_A AnimationState.ONSCREEN) 0
      (by decide) (fun tm _ => Nat.zero_le tm.time))
    (by decide) (by decide)
  exact ⟨h.1, h.2.1 CardId.CARD_B⟩
